import Mathlib

/-!
Shallow embedding of `pyDNAbinding/binding_model.py`.

Matrices (numpy 2-D arrays) are embedded as `List (List _)` in row-major
order.  Exact rationals stand in for the float inputs wherever the code only
performs field operations and comparisons (float32/float64 rounding is
abstracted away); real numbers are used where the code applies transcendental
functions (`log2`, `exp`, the logistic).  Fallible constructors and functions
return `Except String _`, the string being the Python exception raised.

The helpers `logistic`, `calc_occ`, `R`, `T` (module `misc`),
`multichannel_convolve` (module `signal`) and `scipy.optimize.brentq` are not
part of this repository's source tree; they are modelled from the spec and
carry a doc comment saying so.
-/

/-- Number of columns of a row-major matrix (numpy `shape[1]` of a well-formed
2-D array): the length of the first row. -/
def matrix_cols {α : Type} (m : List (List α)) : Nat :=
  (m.headD []).length

/-- Whether a list of rows is a genuine (nonempty) 2-D matrix: numpy builds a
2-D array exactly when there is at least one row and all rows have equal
length (a ragged or empty input yields a 1-D/object array instead). -/
def is_matrix {α : Type} (m : List (List α)) : Bool :=
  !m.isEmpty && m.all (fun r => r.length == matrix_cols m)

/-- Reverse a matrix along both axes: models `np.fliplr(np.flipud(x))` and
equally the slice `x[::-1, ::-1]`. -/
def flip_matrix {α : Type} (m : List (List α)) : List (List α) :=
  m.reverse.map List.reverse

/-- Round a rational to the nearest integer, halves to even: models numpy's
`np.rint` / the rounding used by `ndarray.round`. -/
def rint (q : ℚ) : ℤ :=
  if q - ⌊q⌋ < 1/2 then ⌊q⌋
  else if q - ⌊q⌋ > 1/2 then ⌊q⌋ + 1
  else if ⌊q⌋ % 2 = 0 then ⌊q⌋ else ⌊q⌋ + 1

/-- ScoreDirection from the source: the three strand-orientation tags. -/
inductive ScoreDirection : Type
  | FWD
  | RC
  | MAX

/-- Dot product of two equal-length rows (channel-wise product, summed). -/
def dot_rows (a b : List ℚ) : ℚ :=
  (List.zipWith (fun x y => x * y) a b).sum

/-- Score of the window of `seq` starting at position `k` against `filt`:
the full dot product of the filter block against the sequence block. -/
def window_dot (seq filt : List (List ℚ)) (k : Nat) : ℚ :=
  ((List.range filt.length).map
    (fun i => dot_rows (seq.getD (k + i) []) (filt.getD i []))).sum

/-- Modelled from the spec: `multichannel_convolve` (module `signal`, not in
src/) in mode `valid` computes the sliding dot-product of the filter against
every valid window of the sequence, producing `N - L + 1` scores and no
padding; when the filter is longer than the sequence there are zero valid
positions and the result is empty. -/
def multichannel_convolve (seq filt : List (List ℚ)) : List ℚ :=
  if filt.length ≤ seq.length then
    (List.range (seq.length - filt.length + 1)).map (fun k => window_dot seq filt k)
  else []

/-- score_coded_seq_with_convolutional_filter from the source: FWD convolves
the doubly reversed sequence, RC convolves the sequence as given, MAX takes
the element-wise maximum of the two. -/
def score_coded_seq_with_convolutional_filter
    (coded_seq filt : List (List ℚ)) : ScoreDirection → List ℚ
  | ScoreDirection.FWD => multichannel_convolve (flip_matrix coded_seq) filt
  | ScoreDirection.RC => multichannel_convolve coded_seq filt
  | ScoreDirection.MAX =>
      List.zipWith max
        (multichannel_convolve (flip_matrix coded_seq) filt)
        (multichannel_convolve coded_seq filt)

/-- Whether a row of an encoded sequence is one-hot: entries in 0/1 with
exactly one hot channel. -/
def is_one_hot_row (r : List ℚ) : Bool :=
  r.all (fun x => x == 0 || x == 1) && r.count 1 == 1

/-- Whether an encoded sequence is one-hot: every position's row is one-hot. -/
def is_one_hot (s : List (List ℚ)) : Bool :=
  s.all is_one_hot_row

/-- DNASequence from the source, reduced to the raw sequence string. -/
structure DNASequence : Type where
  seq : String

/-- DNASequences from the source: the stored sequences together with the
`_seq_lens` array built by the constructor loop. -/
structure DNASequences : Type where
  seqs : List DNASequence
  seq_lens : List Nat

/-- DNASequences.__init__ from the source: for each sequence of the input
list it appends `len(seqs)` - the length of the whole input list - to
`_seq_lens` (source line 106). -/
def DNASequences.init (seqs : List String) : DNASequences :=
  { seqs := seqs.map DNASequence.mk
    seq_lens := seqs.map (fun _ => seqs.length) }

/-- Validation performed by ConvolutionalDNABindingModel.__init__ on a
candidate filter: the 2-D assertion (`assert len(shape) == 2`) and the
channel-count dispatch (4 or 10, otherwise a TypeError).  Returns the raised
exception, if any. -/
def conv_filter_check {α : Type} (filt : List (List α)) : Option String :=
  if !(is_matrix filt) then some "AssertionError"
  else if matrix_cols filt = 4 ∨ matrix_cols filt = 10 then none
  else some "TypeError: Unrecognized ddg_array type - expecting one-hot (Nx4) or one-hot-plus-shape (NX10)"

/-- PWMBindingModel from the source: the stored probability matrix and the
convolutional filter derived from it at construction. -/
structure PWMBindingModel : Type where
  pwm : List (List ℚ)
  convolutional_filter : List (List ℝ)

/-- Filter derivation in PWMBindingModel.__init__ (source lines 343-344):
`-np.log2(np.clip(1 - pwm, 1e-6, 1 - 1e-6))`, entrywise. -/
noncomputable def pwm_filter (pwm : List (List ℚ)) : List (List ℝ) :=
  pwm.map (List.map (fun (p : ℚ) =>
    -Real.logb 2 (min (max (1 - (p : ℝ)) (1/1000000)) (1 - 1/1000000))))

/-- Validation performed by PWMBindingModel.__init__, in source order:
casting a ragged or empty input to a float array fails first, then the
row-stochasticity check `(pwm.sum(1).round(6) == 1.0).all()`, then the
column-count check `pwm.shape[1] != 4`.  Returns the raised exception, if
any. -/
def pwm_check (pwm : List (List ℚ)) : Option String :=
  if pwm.isEmpty then some "AxisError"
  else if !(pwm.all (fun r => r.length == matrix_cols pwm)) then some "ValueError"
  else if !(pwm.all (fun r => rint (r.sum * 1000000) == 1000000)) then
    some "TypeError: PWM rows must sum to one."
  else if !(matrix_cols pwm == 4) then some "TypeError: PWMs must have dimension NX4."
  else none

/-- PWMBindingModel.__init__ from the source: validate, then store the pwm
and the derived convolutional filter.  (The subsequent
ConvolutionalDNABindingModel.__init__ checks always pass here: the filter is
a nonempty uniform matrix with 4 columns.) -/
noncomputable def pwm_init (pwm : List (List ℚ)) : Except String PWMBindingModel :=
  match pwm_check pwm with
  | some e => Except.error e
  | none => Except.ok { pwm := pwm, convolutional_filter := pwm_filter pwm }

/-- EnergeticDNABindingModel from the source: reference energy, the stored
ddg array, and the convolutional filter derived at construction. -/
structure EnergeticDNABindingModel : Type where
  ref_energy : ℝ
  ddg_array : List (List ℝ)
  convolutional_filter : List (List ℝ)

/-- First step of the filter derivation in EnergeticDNABindingModel.__init__:
`convolutional_filter[0, :] += ref_energy` on a copy of the ddg array. -/
def add_ref_to_row0 (ref_energy : ℝ) (ddg : List (List ℝ)) : List (List ℝ) :=
  match ddg with
  | [] => []
  | r :: rest => r.map (fun x => x + ref_energy) :: rest

/-- Second step of the filter derivation: `convolutional_filter *= -1`. -/
def neg_matrix (m : List (List ℝ)) : List (List ℝ) :=
  m.map (List.map (fun x => -x))

/-- EnergeticDNABindingModel.__init__ from the source: store `ref_energy` and
`ddg_array` unchanged, derive the filter by adding `ref_energy` into row 0 of
a copy and negating, then run the ConvolutionalDNABindingModel checks.  A
ragged input fails the float cast; an empty array makes the row-0 update
raise IndexError. -/
def energetic_init (ref_energy : ℝ) (ddg_array : List (List ℝ)) :
    Except String EnergeticDNABindingModel :=
  if !(ddg_array.all (fun r => r.length == matrix_cols ddg_array)) then
    Except.error "ValueError"
  else if ddg_array.isEmpty then Except.error "IndexError"
  else
    match conv_filter_check (neg_matrix (add_ref_to_row0 ref_energy ddg_array)) with
    | some e => Except.error e
    | none =>
        Except.ok
          { ref_energy := ref_energy
            ddg_array := ddg_array
            convolutional_filter := neg_matrix (add_ref_to_row0 ref_energy ddg_array) }

/-- PWMBindingModel.build_energetic_model from the source (lines 349-357):
ref_energy 0, a zero matrix of width 4 (or 10 with shape channels) whose
first columns are filled from the negated convolutional filter, passed to the
EnergeticDNABindingModel constructor.  (Were a filter row longer than the
width, the source would raise IndexError on the excess assignment.) -/
noncomputable def PWMBindingModel.build_energetic_model
    (m : PWMBindingModel) (include_shape : Bool) :
    Except String EnergeticDNABindingModel :=
  let width := 4 + (if include_shape then 6 else 0)
  if m.convolutional_filter.any (fun row => width < row.length) then
    Except.error "IndexError"
  else
    energetic_init 0
      (m.convolutional_filter.map (fun row =>
        (List.range width).map (fun j => if j < row.length then -(row.getD j 0) else 0)))

/-- EnergeticDNABindingModel.build_pwm from the source (lines 377-384).  The
first statement of the body evaluates `ref_energy + chem_pot +
self.mean_energy`, but `ref_energy` is not a bound name in the method scope
(the field is `self.ref_energy` and no global of that name exists), so every
call raises NameError before computing anything. -/
def EnergeticDNABindingModel.build_pwm
    (_m : EnergeticDNABindingModel) (_chem_pot : ℝ) :
    Except String (List (List ℝ)) :=
  Except.error "NameError: ref_energy is not defined"

/-- DeltaDeltaGArray.reverse_complement from the source (line 521): the slice
`self[::-1, ::-1]`, reversing both the position order and the channel
order. -/
def DeltaDeltaGArray.reverse_complement {α : Type} (x : List (List α)) :
    List (List α) :=
  flip_matrix x

/-- ReducedDeltaDeltaGArray.reverse_complement from the source (lines
468-473), on a (channels x motif_len) array: returns the transcription-strand
contribution `ts_cont` (the sum of row 2) together with a new array built by
swapping rows 0 and 1, zeroing the remaining rows, subtracting row 2's first
three entries from the first three columns of every row, and reversing the
column order. -/
def ReducedDeltaDeltaGArray.reverse_complement {α : Type} [Ring α]
    (x : List (List α)) : α × List (List α) :=
  let m := matrix_cols x
  let row2 := x.getD 2 []
  let swapped : List (List α) :=
    (List.range x.length).map (fun i =>
      if i = 0 then x.getD 1 []
      else if i = 1 then x.getD 0 []
      else List.replicate m 0)
  let adjusted := swapped.map (fun r =>
    (List.range m).map (fun j => r.getD j 0 - if j < 3 then row2.getD j 0 else 0))
  (row2.sum, adjusted.map List.reverse)

/-- Modelled from the spec: the numerically-stable logistic primitive from
the `misc` module (not in src/), `logistic(x) = 1 / (1 + exp(-x))`. -/
noncomputable def logistic (x : ℝ) : ℝ :=
  1 / (1 + Real.exp (-x))

/-- Modelled from the spec: `calc_occ` from the `misc` module (not in src/),
the fractional occupancy at chemical potential `chem_pot` of a site of free
energy `energy`: a logistic function of `chem_pot - energy`. -/
noncomputable def calc_occ (chem_pot energy : ℝ) : ℝ :=
  logistic (chem_pot - energy)

/-- Modelled from the spec: the gas-constant-like scalar `R` from the `misc`
module (not in src/); its exact value is not given there, so the standard gas
constant in kcal/(mol*K) is used.  The theorems below only use `R * T`
symbolically. -/
noncomputable def R : ℝ := 1.987e-3

/-- Modelled from the spec: the absolute temperature `T` from the `misc`
module (not in src/); a standard laboratory temperature in kelvins. -/
noncomputable def T : ℝ := 300

/-- Weights actually used by est_chem_potential_from_affinities: the supplied
ones, or the uniform distribution `np.ones(n) / n` when omitted. -/
def effective_weights (affinities : List ℚ) (weights : Option (List ℚ)) :
    List ℚ :=
  weights.getD (List.replicate affinities.length (1 / (affinities.length : ℚ)))

/-- calc_bnd_frac from the source: the weighted sum
`(weights * calc_occ(chem_pot, affinities)).sum()`. -/
noncomputable def calc_bnd_frac (weights affinities : List ℚ) (chem_pot : ℝ) : ℝ :=
  (List.zipWith (fun wi ai => (wi : ℝ) * calc_occ chem_pot (ai : ℝ))
    weights affinities).sum

/-- Mass-balance residual `f` from the source:
`prot_conc - exp(u) - dna_conc * calc_bnd_frac(affinities, u)`. -/
noncomputable def f_mass_balance (affinities : List ℚ) (dna_conc prot_conc : ℚ)
    (weights : List ℚ) (u : ℝ) : ℝ :=
  (prot_conc : ℝ) - Real.exp u - (dna_conc : ℝ) * calc_bnd_frac weights affinities u

/-- Upper end of the search bracket from the source:
`100 + np.log(prot_conc / (R * T))`. -/
noncomputable def max_u (prot_conc : ℚ) : ℝ :=
  100 + Real.log ((prot_conc : ℝ) / (R * T))

/-- Bisection step lemma: inside a sign-change bracket of width at most
`xtol * 2 ^ n` there is a sign-change sub-bracket of width at most `xtol`. -/
theorem exists_small_bracket (f : ℝ → ℝ) (xtol : ℝ) :
    ∀ (n : Nat) (a b : ℝ), f a * f b ≤ 0 → a ≤ b → b - a ≤ xtol * 2 ^ n →
      ∃ a2 b2, a ≤ a2 ∧ a2 ≤ b2 ∧ b2 ≤ b ∧ b2 - a2 ≤ xtol ∧ f a2 * f b2 ≤ 0 := by
  intro n
  induction n with
  | zero =>
    intro a b hf hab hw
    exact ⟨a, b, le_refl a, hab, le_refl b, by simpa using hw, hf⟩
  | succ n ih =>
    intro a b hf hab hw
    have ham : a ≤ (a + b) / 2 := by linarith
    have hmb : (a + b) / 2 ≤ b := by linarith
    by_cases hc : f a * f ((a + b) / 2) ≤ 0
    · obtain ⟨a2, b2, h1, h2, h3, h4, h5⟩ :=
        ih a ((a + b) / 2) hc ham (by rw [pow_succ] at hw; linarith)
      exact ⟨a2, b2, h1, h2, le_trans h3 hmb, h4, h5⟩
    · push_neg at hc
      have hfa : f a ≠ 0 := by
        intro h0
        rw [h0, zero_mul] at hc
        exact lt_irrefl 0 hc
      have hkey : f ((a + b) / 2) * f b ≤ 0 := by
        by_contra hpos
        push_neg at hpos
        have hfa2 : 0 < f a ^ 2 := pow_two_pos_of_ne_zero hfa
        have h1 : 0 < f a ^ 2 * (f ((a + b) / 2) * f b) := mul_pos hfa2 hpos
        have h2 : (f a * f ((a + b) / 2)) * (f a * f b) ≤ 0 :=
          mul_nonpos_of_nonneg_of_nonpos hc.le hf
        nlinarith [h1, h2]
      obtain ⟨a2, b2, h1, h2, h3, h4, h5⟩ :=
        ih ((a + b) / 2) b hkey hmb (by rw [pow_succ] at hw; linarith)
      exact ⟨a2, b2, le_trans ham h1, h2, h3, h4, h5⟩

/-- Existence of a point of the bracket carrying a sign-change sub-bracket of
width at most `xtol`: the value a bracketed bisection-family root-finder with
absolute tolerance `xtol` returns. -/
theorem exists_near_root (f : ℝ → ℝ) (a b xtol : ℝ)
    (hfab : f a * f b ≤ 0) (hab : a ≤ b) (hx : 0 < xtol) :
    ∃ u, a ≤ u ∧ u ≤ b ∧ ∃ a2 b2, a ≤ a2 ∧ a2 ≤ u ∧ u ≤ b2 ∧ b2 ≤ b ∧
      b2 - a2 ≤ xtol ∧ f a2 * f b2 ≤ 0 := by
  obtain ⟨n, hn⟩ := pow_unbounded_of_one_lt ((b - a) / xtol) (by norm_num : (1:ℝ) < 2)
  have hw : b - a ≤ xtol * 2 ^ n := by
    rw [div_lt_iff₀ hx] at hn
    nlinarith [pow_pos (by norm_num : (0:ℝ) < 2) n]
  obtain ⟨a2, b2, h1, h2, h3, h4, h5⟩ :=
    exists_small_bracket f xtol n a b hfab hab hw
  exact ⟨a2, h1, le_trans h2 h3, a2, b2, h1, le_refl a2, h2, h3, h4, h5⟩

/-- Modelled from the spec: `scipy.optimize.brentq`, a bisection-family
bracketed root-finder.  It fails when `f` does not change sign across the
bracket; otherwise it returns a point of the bracket within absolute
tolerance `xtol` of a sign change (here: a point carrying a sign-change
sub-bracket of width at most `xtol`). -/
noncomputable def brentq (f : ℝ → ℝ) (a b xtol : ℝ) : Except String ℝ :=
  if h : f a * f b ≤ 0 ∧ a ≤ b ∧ 0 < xtol then
    Except.ok (Classical.choose (exists_near_root f a b xtol h.1 h.2.1 h.2.2))
  else Except.error "ValueError: f(a) and f(b) must have different signs"

/-- est_chem_potential_from_affinities from the source (lines 559-589):
default the weights to uniform, assert that they round-sum to 1 (an
AssertionError otherwise, before any root-finding), then run brentq on the
mass-balance residual over the bracket `[-1000, 100 + log(prot_conc/(R*T))]`
with `xtol = 1e-4`. -/
noncomputable def est_chem_potential_from_affinities
    (affinities : List ℚ) (dna_conc prot_conc : ℚ)
    (weights : Option (List ℚ)) : Except String ℝ :=
  if rint ((effective_weights affinities weights).sum * 1000000) = 1000000 then
    brentq (f_mass_balance affinities dna_conc prot_conc
            (effective_weights affinities weights))
      (-1000) (max_u prot_conc) (1/10000)
  else Except.error "AssertionError"

/-! Helper lemmas. -/

/-- Characterization of the rounding check `x.round(6) == 1.0` at the target
value 1000000 of `x * 10^6`: since 1000000 is even, half-to-even rounding
hits it exactly on the closed interval of radius 1/2. -/
theorem rint_eq_million_iff (x : ℚ) : rint x = 1000000 ↔ |x - 1000000| ≤ 1/2 := by
  have hf1 : (⌊x⌋ : ℚ) ≤ x := Int.floor_le x
  have hf2 : x < ⌊x⌋ + 1 := Int.lt_floor_add_one x
  unfold rint
  constructor
  · intro h
    split_ifs at h with h1 h2 h3
    · have hc : (⌊x⌋ : ℚ) = 1000000 := by exact_mod_cast h
      rw [abs_le]
      constructor <;> linarith
    · have hz : ⌊x⌋ = 999999 := by omega
      have hc : (⌊x⌋ : ℚ) = 999999 := by exact_mod_cast hz
      rw [abs_le]
      constructor <;> linarith
    · have hx2 : x - ⌊x⌋ = 1/2 := le_antisymm (not_lt.mp h2) (not_lt.mp h1)
      have hc : (⌊x⌋ : ℚ) = 1000000 := by exact_mod_cast h
      rw [abs_le]
      constructor <;> linarith
    · have hx2 : x - ⌊x⌋ = 1/2 := le_antisymm (not_lt.mp h2) (not_lt.mp h1)
      have hz : ⌊x⌋ = 999999 := by omega
      have hc : (⌊x⌋ : ℚ) = 999999 := by exact_mod_cast hz
      rw [abs_le]
      constructor <;> linarith
  · intro h
    rw [abs_le] at h
    by_cases hx : (1000000 : ℚ) ≤ x
    · have hfl : ⌊x⌋ = 1000000 := by
        rw [Int.floor_eq_iff]
        constructor
        · exact_mod_cast hx
        · push_cast
          linarith [h.2]
      split_ifs with h1 h2 h3
      · exact hfl
      · exfalso
        rw [hfl] at h2
        push_cast at h2
        linarith [h.2]
      · exact hfl
      · exfalso
        rw [hfl] at h3
        omega
    · push_neg at hx
      have hfl : ⌊x⌋ = 999999 := by
        rw [Int.floor_eq_iff]
        constructor
        · push_cast
          linarith [h.1]
        · push_cast
          linarith
      split_ifs with h1 h2 h3
      · exfalso
        rw [hfl] at h1
        push_cast at h1
        linarith [h.1]
      · rw [hfl]
        decide
      · exfalso
        rw [hfl] at h3
        omega
      · rw [hfl]
        decide

/-- The row-sum check of the source, `rint (s * 10^6) = 10^6`, holds exactly
when the sum is within 5e-7 of 1. -/
theorem rint_sum_iff (s : ℚ) :
    rint (s * 1000000) = 1000000 ↔ |s - 1| ≤ 1/2000000 := by
  rw [rint_eq_million_iff]
  have habs : |s * 1000000 - 1000000| = |s - 1| * 1000000 := by
    rw [show s * 1000000 - 1000000 = (s - 1) * 1000000 by ring, abs_mul]
    norm_num
  rw [habs]
  constructor <;> intro h <;> linarith [abs_nonneg (s - 1)]

/-- Double axis reversal preserves the row count. -/
theorem flip_matrix_length {α : Type} (m : List (List α)) :
    (flip_matrix m).length = m.length := by
  simp [flip_matrix]

/-- Double axis reversal is an involution. -/
theorem flip_matrix_flip_matrix {α : Type} (m : List (List α)) :
    flip_matrix (flip_matrix m) = m := by
  have hrr : (List.reverse ∘ List.reverse : List α → List α) = id :=
    funext fun l => List.reverse_reverse l
  rw [flip_matrix, flip_matrix, ← List.map_reverse, List.reverse_reverse,
    List.map_map, hrr, List.map_id]

/-- Entry extraction for a map over `List.range`. -/
theorem getD_range_map (f : Nat → ℚ) (n k : Nat) (h : k < n) :
    (((List.range n).map f)).getD k 0 = f k := by
  rw [List.getD_eq_getElem ((List.range n).map f) 0 (by simpa using h)]
  simp

/-- Entry extraction for an element-wise maximum. -/
theorem getD_zipWith_max (l1 l2 : List ℚ) (k : Nat)
    (h1 : k < l1.length) (h2 : k < l2.length) :
    (List.zipWith max l1 l2).getD k 0 = max (l1.getD k 0) (l2.getD k 0) := by
  induction l1 generalizing l2 k with
  | nil => simp at h1
  | cons a t ih =>
    cases l2 with
    | nil => simp at h2
    | cons b t2 =>
      cases k with
      | zero => simp
      | succ k =>
        simp only [List.zipWith_cons_cons, List.getD_cons_succ]
        exact ih t2 k (by simpa using h1) (by simpa using h2)

/-- Valid-mode convolution produces `N - L + 1` scores. -/
theorem multichannel_convolve_length (seq filt : List (List ℚ))
    (h : filt.length ≤ seq.length) :
    (multichannel_convolve seq filt).length = seq.length - filt.length + 1 := by
  simp [multichannel_convolve, h]

/-- Valid-mode convolution's score `k` is the window dot-product at `k`. -/
theorem multichannel_convolve_getD (seq filt : List (List ℚ))
    (h : filt.length ≤ seq.length) (k : Nat)
    (hk : k < seq.length - filt.length + 1) :
    (multichannel_convolve seq filt).getD k 0 = window_dot seq filt k := by
  simp only [multichannel_convolve, if_pos h]
  exact getD_range_map _ _ _ hk

/-- Dot product against an all-zero row is zero. -/
theorem dot_rows_zero_right (a b : List ℚ) (hb : ∀ y ∈ b, y = 0) :
    dot_rows a b = 0 := by
  induction b generalizing a with
  | nil => cases a <;> simp [dot_rows]
  | cons y t ih =>
    cases a with
    | nil => simp [dot_rows]
    | cons x s =>
      have hy : y = 0 := hb y (List.mem_cons_self y t)
      have ht : dot_rows s t = 0 := ih s (fun z hz => hb z (List.mem_cons_of_mem y hz))
      simp only [dot_rows, List.zipWith_cons_cons, List.sum_cons] at *
      rw [hy, mul_zero, ht, add_zero]

/-- A window dot-product against an all-zero filter is zero. -/
theorem window_dot_zero (seq filt : List (List ℚ)) (k : Nat)
    (hf : ∀ r ∈ filt, ∀ y ∈ r, y = 0) : window_dot seq filt k = 0 := by
  apply List.sum_eq_zero
  intro x hx
  obtain ⟨i, _, rfl⟩ := List.mem_map.mp hx
  by_cases hi : i < filt.length
  · rw [List.getD_eq_getElem filt [] hi]
    exact dot_rows_zero_right _ _ (hf _ (List.getElem_mem hi))
  · rw [List.getD_eq_default filt [] (not_lt.mp hi)]
    exact dot_rows_zero_right _ _ (by intro y hy; simp at hy)

/-- Scoring with an all-zero filter yields all-zero scores, in every
direction. -/
theorem score_zero_filter (S filt : List (List ℚ))
    (hf : ∀ r ∈ filt, ∀ y ∈ r, y = 0) (h : filt.length ≤ S.length)
    (dir : ScoreDirection) :
    score_coded_seq_with_convolutional_filter S filt dir
      = List.replicate (S.length - filt.length + 1) 0 := by
  have hzero : ∀ T : List (List ℚ), filt.length ≤ T.length →
      multichannel_convolve T filt
        = List.replicate (T.length - filt.length + 1) 0 := by
    intro T hT
    rw [multichannel_convolve, if_pos hT, List.eq_replicate_iff]
    constructor
    · simp
    · intro x hx
      obtain ⟨k, _, rfl⟩ := List.mem_map.mp hx
      exact window_dot_zero T filt k hf
  have hTf : filt.length ≤ (flip_matrix S).length := by
    rw [flip_matrix_length]
    exact h
  cases dir with
  | FWD =>
    show multichannel_convolve (flip_matrix S) filt = _
    rw [hzero _ hTf, flip_matrix_length]
  | RC => exact hzero S h
  | MAX =>
    show List.zipWith max (multichannel_convolve (flip_matrix S) filt)
      (multichannel_convolve S filt) = _
    rw [hzero _ hTf, hzero S h, flip_matrix_length]
    rw [List.zipWith_replicate]
    simp

/-! Claim theorems. -/

/-- C2: for every one-hot encoded sequence `S` and every filter `M` with no
more rows than `S` has positions, scoring with direction MAX returns exactly
the element-wise maximum of the FWD-direction scores and the RC-direction
scores of the same sequence and filter, at every position. -/
theorem score_max_is_elementwise_max (S M : List (List ℚ))
    (hS : is_one_hot S = true) (h : M.length ≤ S.length) :
    score_coded_seq_with_convolutional_filter S M ScoreDirection.MAX =
      List.zipWith max
        (score_coded_seq_with_convolutional_filter S M ScoreDirection.FWD)
        (score_coded_seq_with_convolutional_filter S M ScoreDirection.RC) := rfl

/-- Witness for C2 at a concrete 10-position one-hot sequence and a
2-position filter. -/
theorem score_max_is_elementwise_max_check :
    is_one_hot (List.replicate 10 [1, 0, 0, 0]) = true ∧
    (([[1, 0, 0, 0], [0, 1, 0, 0]] : List (List ℚ)).length
      ≤ (List.replicate 10 ([1, 0, 0, 0] : List ℚ)).length) ∧
    score_coded_seq_with_convolutional_filter
        (List.replicate 10 [1, 0, 0, 0]) [[1, 0, 0, 0], [0, 1, 0, 0]]
        ScoreDirection.MAX =
      List.zipWith max
        (score_coded_seq_with_convolutional_filter
          (List.replicate 10 [1, 0, 0, 0]) [[1, 0, 0, 0], [0, 1, 0, 0]]
          ScoreDirection.FWD)
        (score_coded_seq_with_convolutional_filter
          (List.replicate 10 [1, 0, 0, 0]) [[1, 0, 0, 0], [0, 1, 0, 0]]
          ScoreDirection.RC) :=
  ⟨by decide, by decide,
    score_max_is_elementwise_max _ _ (by decide) (by decide)⟩

/-- C3: for every encoded sequence of length `N` and filter of length `L`
with `L ≤ N`, the scorer returns exactly `N - L + 1` scores (no padding), and
each score is the dot-product of the filter against one valid window: for FWD
the windows of the doubly reversed sequence, for RC the windows of the
sequence as given, for MAX the maximum of the two. -/
theorem scorer_valid_windows (S M : List (List ℚ)) (h : M.length ≤ S.length) :
    (∀ dir, (score_coded_seq_with_convolutional_filter S M dir).length
        = S.length - M.length + 1) ∧
    ∀ k, k < S.length - M.length + 1 →
      (score_coded_seq_with_convolutional_filter S M ScoreDirection.FWD).getD k 0
          = window_dot (flip_matrix S) M k ∧
      (score_coded_seq_with_convolutional_filter S M ScoreDirection.RC).getD k 0
          = window_dot S M k ∧
      (score_coded_seq_with_convolutional_filter S M ScoreDirection.MAX).getD k 0
          = max (window_dot (flip_matrix S) M k) (window_dot S M k) := by
  have hf : M.length ≤ (flip_matrix S).length := by
    rw [flip_matrix_length]
    exact h
  have hlf := multichannel_convolve_length (flip_matrix S) M hf
  have hlr := multichannel_convolve_length S M h
  rw [flip_matrix_length] at hlf
  constructor
  · intro dir
    cases dir with
    | FWD => exact hlf
    | RC => exact hlr
    | MAX =>
      show (List.zipWith max _ _).length = _
      rw [List.length_zipWith, hlf, hlr]
      exact min_self _
  · intro k hk
    have hkf : k < (flip_matrix S).length - M.length + 1 := by
      rw [flip_matrix_length]
      exact hk
    have e1 := multichannel_convolve_getD (flip_matrix S) M hf k hkf
    have e2 := multichannel_convolve_getD S M h k hk
    refine ⟨e1, e2, ?_⟩
    show (List.zipWith max (multichannel_convolve (flip_matrix S) M)
      (multichannel_convolve S M)).getD k 0 = _
    rw [getD_zipWith_max _ _ k (by rw [hlf]; exact hk) (by rw [hlr]; exact hk),
      e1, e2]

/-- Witness for C3: scoring a 10-base one-hot encoded sequence with a 4-row
all-zero filter in direction FWD returns an array of length 7 whose entries
are all zero. -/
theorem scorer_valid_windows_check :
    (([[0, 0, 0, 0], [0, 0, 0, 0], [0, 0, 0, 0], [0, 0, 0, 0]] :
        List (List ℚ)).length
      ≤ (List.replicate 10 ([1, 0, 0, 0] : List ℚ)).length) ∧
    (∀ dir, (score_coded_seq_with_convolutional_filter
        (List.replicate 10 [1, 0, 0, 0])
        [[0, 0, 0, 0], [0, 0, 0, 0], [0, 0, 0, 0], [0, 0, 0, 0]] dir).length = 7) ∧
    score_coded_seq_with_convolutional_filter
        (List.replicate 10 [1, 0, 0, 0])
        [[0, 0, 0, 0], [0, 0, 0, 0], [0, 0, 0, 0], [0, 0, 0, 0]]
        ScoreDirection.FWD = List.replicate 7 0 :=
  ⟨by decide,
    (scorer_valid_windows (List.replicate 10 [1, 0, 0, 0])
      [[0, 0, 0, 0], [0, 0, 0, 0], [0, 0, 0, 0], [0, 0, 0, 0]] (by decide)).1,
    score_zero_filter _ _ (by decide) (by decide) ScoreDirection.FWD⟩

/-- C10: for every DNASequences container constructed from a list of `n`
sequences, every entry of its seq_lens array equals `n`, the total number of
sequences in the input list, rather than the length of the corresponding
individual sequence. -/
theorem seq_lens_all_equal_num_seqs (seqs : List String) :
    (DNASequences.init seqs).seq_lens
      = List.replicate seqs.length seqs.length := by
  simp [DNASequences.init, List.map_const']

/-- C7 (amended): applying DeltaDeltaGArray.reverse_complement twice returns
the original array, exactly. -/
theorem ddg_reverse_complement_involution {α : Type} (x : List (List α)) :
    DeltaDeltaGArray.reverse_complement (DeltaDeltaGArray.reverse_complement x)
      = x := by
  unfold DeltaDeltaGArray.reverse_complement
  exact flip_matrix_flip_matrix x

/-- C7 counterexample: the ReducedDeltaDeltaGArray reverse-complement is not
an involution; on the 3-channel, 4-position array with a single 1 in row 2 it
returns a different array after two applications. -/
theorem reduced_reverse_complement_not_involutive :
    (ReducedDeltaDeltaGArray.reverse_complement
      (ReducedDeltaDeltaGArray.reverse_complement
        [[0, 0, 0, 0], [0, 0, 0, 0], [1, 0, 0, 0]]).2).2
      ≠ [[(0 : ℤ), 0, 0, 0], [0, 0, 0, 0], [1, 0, 0, 0]] := by decide

/-- Helper: a nonempty 4-column matrix whose row sums all pass the round-6
check is accepted by the PWMBindingModel validation. -/
theorem pwm_check_none (pwm : List (List ℚ)) (hne : pwm ≠ [])
    (hc : ∀ r ∈ pwm, r.length = 4)
    (hs : ∀ r ∈ pwm, |r.sum - 1| ≤ 1/2000000) :
    pwm_check pwm = none := by
  have hE : pwm.isEmpty = false := by
    cases pwm with
    | nil => exact absurd rfl hne
    | cons r t => rfl
  have hcols : matrix_cols pwm = 4 := by
    cases pwm with
    | nil => exact absurd rfl hne
    | cons r t => exact hc r (List.mem_cons_self r t)
  have huni : (pwm.all (fun r => r.length == matrix_cols pwm)) = true := by
    rw [List.all_eq_true]
    intro r hr
    simp only [beq_iff_eq, hcols]
    exact hc r hr
  have hall : (pwm.all (fun r => rint (r.sum * 1000000) == 1000000)) = true := by
    rw [List.all_eq_true]
    intro r hr
    simp only [beq_iff_eq]
    exact (rint_sum_iff r.sum).mpr (hs r hr)
  simp [pwm_check, hE, huni, hall, hcols]
  exact hc

/-- Helper: on a nonempty uniform matrix with 4 or 10 columns the
EnergeticDNABindingModel constructor succeeds, stores the ddg array
unchanged, and stores the negated reference-shifted filter. -/
theorem energetic_init_ok (ref : ℝ) (ddg : List (List ℝ)) (c : Nat)
    (hne : ddg ≠ []) (hu : ∀ r ∈ ddg, r.length = c) (hc : c = 4 ∨ c = 10) :
    energetic_init ref ddg
      = Except.ok
          { ref_energy := ref
            ddg_array := ddg
            convolutional_filter := neg_matrix (add_ref_to_row0 ref ddg) } := by
  cases ddg with
  | nil => exact absurd rfl hne
  | cons r t =>
    have hr : r.length = c := hu r (List.mem_cons_self r t)
    have hcols0 : matrix_cols (r :: t) = c := hr
    have huni : ((r :: t).all (fun x => x.length == matrix_cols (r :: t))) = true := by
      rw [List.all_eq_true]
      intro x hx
      simp only [beq_iff_eq, hcols0]
      exact hu x hx
    have hcolsT : matrix_cols (neg_matrix (add_ref_to_row0 ref (r :: t))) = c := by
      simp [neg_matrix, add_ref_to_row0, matrix_cols, hr]
    have hm : is_matrix (neg_matrix (add_ref_to_row0 ref (r :: t))) = true := by
      rw [is_matrix, Bool.and_eq_true]
      constructor
      · simp [neg_matrix, add_ref_to_row0]
      · rw [List.all_eq_true]
        intro x hx
        simp only [beq_iff_eq, hcolsT]
        simp only [neg_matrix, add_ref_to_row0, List.map_cons, List.mem_cons,
          List.mem_map] at hx
        rcases hx with hx | ⟨y, hy, rfl⟩
        · subst hx
          simp [hr]
        · simp [hu y (List.mem_cons_of_mem r hy)]
    have hchk : conv_filter_check (neg_matrix (add_ref_to_row0 ref (r :: t))) = none := by
      rw [conv_filter_check, hm]
      simp only [Bool.not_true, Bool.false_eq_true, if_false]
      rw [if_pos]
      rw [hcolsT]
      exact hc
    rw [energetic_init]
    rw [if_neg (by simp [huni]), if_neg (by simp), hchk]

/-- C4 (amended): construction fails with the malformed-probability-matrix
error whenever some row sum is more than 5e-7 away from 1 (the source rounds
the sum to 6 decimal places, half to even, and compares with 1.0); when all
row sums pass that check it fails with the dimension-mismatch error whenever
the matrix does not have exactly 4 columns (the row-sum check runs first);
and it succeeds when all row sums pass and the matrix has 4 columns. -/
theorem pwm_init_validation (pwm : List (List ℚ)) (c : Nat)
    (hne : pwm ≠ []) (hc : ∀ r ∈ pwm, r.length = c) :
    ((∃ r ∈ pwm, 1/2000000 < |r.sum - 1|) →
      pwm_init pwm = Except.error "TypeError: PWM rows must sum to one.") ∧
    ((∀ r ∈ pwm, |r.sum - 1| ≤ 1/2000000) → c ≠ 4 →
      pwm_init pwm = Except.error "TypeError: PWMs must have dimension NX4.") ∧
    ((∀ r ∈ pwm, |r.sum - 1| ≤ 1/2000000) → c = 4 →
      ∃ m, pwm_init pwm = Except.ok m) := by
  have hE : pwm.isEmpty = false := by
    cases pwm with
    | nil => exact absurd rfl hne
    | cons r t => rfl
  have hcols : matrix_cols pwm = c := by
    cases pwm with
    | nil => exact absurd rfl hne
    | cons r t => exact hc r (List.mem_cons_self r t)
  have huni : (pwm.all (fun r => r.length == matrix_cols pwm)) = true := by
    rw [List.all_eq_true]
    intro r hr
    simp only [beq_iff_eq, hcols]
    exact hc r hr
  refine ⟨?_, ?_, ?_⟩
  · intro hbad
    obtain ⟨r, hr, hrbad⟩ := hbad
    have hall : (pwm.all (fun x => rint (x.sum * 1000000) == 1000000)) = false := by
      rw [Bool.eq_false_iff]
      intro hA
      rw [List.all_eq_true] at hA
      have := hA r hr
      simp only [beq_iff_eq] at this
      exact absurd ((rint_sum_iff r.sum).mp this) (not_le.mpr hrbad)
    have hchk : pwm_check pwm = some "TypeError: PWM rows must sum to one." := by
      simp [pwm_check, hE, huni, hall]
    simp [pwm_init, hchk]
  · intro hgood hc4
    have hall : (pwm.all (fun x => rint (x.sum * 1000000) == 1000000)) = true := by
      rw [List.all_eq_true]
      intro x hx
      simp only [beq_iff_eq]
      exact (rint_sum_iff x.sum).mpr (hgood x hx)
    have hc4' : (matrix_cols pwm == 4) = false := by
      simp [hcols, hc4]
    have hchk : pwm_check pwm = some "TypeError: PWMs must have dimension NX4." := by
      simp [pwm_check, hE, huni, hall, hc4']
    simp [pwm_init, hchk]
  · intro hgood hc4
    have hchk : pwm_check pwm = none :=
      pwm_check_none pwm hne (fun r hr => hc4 ▸ hc r hr) hgood
    refine ⟨{ pwm := pwm, convolutional_filter := pwm_filter pwm }, ?_⟩
    unfold pwm_init
    rw [hchk]

/-- C4 counterexample: a 4-column matrix whose single row sums to 1 + 1e-6,
which is within the claimed 1e-6 tolerance, is nevertheless rejected with
the malformed-probability-matrix error - the actual acceptance radius is
5e-7, not 1e-6. -/
theorem pwm_init_tolerance_refuted :
    |([(1 : ℚ)/4 + 1/1000000, 1/4, 1/4, 1/4].sum) - 1| ≤ 1/1000000 ∧
    ([(1 : ℚ)/4 + 1/1000000, 1/4, 1/4, 1/4].length = 4) ∧
    pwm_init [[(1 : ℚ)/4 + 1/1000000, 1/4, 1/4, 1/4]]
      = Except.error "TypeError: PWM rows must sum to one." := by
  have hsum : ([(1 : ℚ)/4 + 1/1000000, 1/4, 1/4, 1/4].sum) = 1000001/1000000 := by
    norm_num [List.sum_cons, List.sum_nil]
  have hdiff : ([(1 : ℚ)/4 + 1/1000000, 1/4, 1/4, 1/4].sum) - 1 = 1/1000000 := by
    rw [hsum]
    norm_num
  refine ⟨by rw [hdiff, abs_of_nonneg (by norm_num : (0:ℚ) ≤ 1/1000000)],
    by norm_num, ?_⟩
  have hbad : rint (([(1 : ℚ)/4 + 1/1000000, 1/4, 1/4, 1/4].sum) * 1000000)
      ≠ 1000000 := by
    intro hcontra
    rw [rint_sum_iff, hdiff,
      abs_of_nonneg (by norm_num : (0:ℚ) ≤ 1/1000000)] at hcontra
    norm_num at hcontra
  have hall : ([[(1 : ℚ)/4 + 1/1000000, 1/4, 1/4, 1/4]].all
      (fun x => rint (x.sum * 1000000) == 1000000)) = false := by
    simp only [List.all_cons, List.all_nil, Bool.and_true]
    exact beq_eq_false_iff_ne.mpr hbad
  have c1 : ([[(1 : ℚ)/4 + 1/1000000, 1/4, 1/4, 1/4]] :
      List (List ℚ)).isEmpty = false := rfl
  have c2 : ([[(1 : ℚ)/4 + 1/1000000, 1/4, 1/4, 1/4]].all
      (fun r => r.length == matrix_cols [[(1 : ℚ)/4 + 1/1000000, 1/4, 1/4, 1/4]]))
      = true := by decide
  have hchk : pwm_check [[(1 : ℚ)/4 + 1/1000000, 1/4, 1/4, 1/4]]
      = some "TypeError: PWM rows must sum to one." := by
    simp only [pwm_check, c1, c2, hall, Bool.not_true, Bool.not_false,
      Bool.false_eq_true, eq_self_iff_true, if_true, if_false]
  unfold pwm_init
  rw [hchk]

/-- Witness for C4 on a valid one-row uniform PWM: the success branch. -/
theorem pwm_init_validation_check :
    ([[(1 : ℚ)/4, 1/4, 1/4, 1/4]] ≠ ([] : List (List ℚ))) ∧
    (∀ r ∈ [[(1 : ℚ)/4, 1/4, 1/4, 1/4]], r.length = 4) ∧
    (∀ r ∈ [[(1 : ℚ)/4, 1/4, 1/4, 1/4]], |r.sum - 1| ≤ 1/2000000) ∧
    ∃ m, pwm_init [[(1 : ℚ)/4, 1/4, 1/4, 1/4]] = Except.ok m := by
  have h1 : ([[(1 : ℚ)/4, 1/4, 1/4, 1/4]] ≠ ([] : List (List ℚ))) :=
    List.cons_ne_nil _ _
  have h2 : ∀ r ∈ [[(1 : ℚ)/4, 1/4, 1/4, 1/4]], r.length = 4 := by
    intro r hr
    rw [List.mem_singleton] at hr
    subst hr
    rfl
  have h3 : ∀ r ∈ [[(1 : ℚ)/4, 1/4, 1/4, 1/4]], |r.sum - 1| ≤ 1/2000000 := by
    intro r hr
    rw [List.mem_singleton] at hr
    subst hr
    norm_num [List.sum_cons, List.sum_nil]
  exact ⟨h1, h2, h3,
    (pwm_init_validation [[(1 : ℚ)/4, 1/4, 1/4, 1/4]] 4 h1 h2).2.2 h3 rfl⟩

/-- C5: for every valid PWM input matrix, the constructed model's
convolutional filter equals -log2 applied entrywise to (1 - pwm) clipped
entrywise into [1e-6, 1 - 1e-6]. -/
theorem pwm_filter_formula (pwm : List (List ℚ))
    (hne : pwm ≠ []) (hc : ∀ r ∈ pwm, r.length = 4)
    (hs : ∀ r ∈ pwm, |r.sum - 1| ≤ 1/2000000) :
    ∃ m, pwm_init pwm = Except.ok m ∧
      m.convolutional_filter
        = pwm.map (List.map (fun (p : ℚ) =>
            -Real.logb 2 (min (max (1 - (p : ℝ)) (1/1000000)) (1 - 1/1000000)))) := by
  have hchk := pwm_check_none pwm hne hc hs
  refine ⟨{ pwm := pwm, convolutional_filter := pwm_filter pwm }, ?_, rfl⟩
  unfold pwm_init
  rw [hchk]

/-- Witness for C5 on a concrete consensus-A column. -/
theorem pwm_filter_formula_check :
    ([[(7 : ℚ)/10, 1/10, 1/10, 1/10]] ≠ ([] : List (List ℚ))) ∧
    (∀ r ∈ [[(7 : ℚ)/10, 1/10, 1/10, 1/10]], r.length = 4) ∧
    (∀ r ∈ [[(7 : ℚ)/10, 1/10, 1/10, 1/10]], |r.sum - 1| ≤ 1/2000000) ∧
    ∃ m, pwm_init [[(7 : ℚ)/10, 1/10, 1/10, 1/10]] = Except.ok m ∧
      m.convolutional_filter
        = [[(7 : ℚ)/10, 1/10, 1/10, 1/10]].map (List.map (fun (p : ℚ) =>
            -Real.logb 2 (min (max (1 - (p : ℝ)) (1/1000000)) (1 - 1/1000000)))) := by
  have h1 : ([[(7 : ℚ)/10, 1/10, 1/10, 1/10]] ≠ ([] : List (List ℚ))) :=
    List.cons_ne_nil _ _
  have h2 : ∀ r ∈ [[(7 : ℚ)/10, 1/10, 1/10, 1/10]], r.length = 4 := by
    intro r hr
    rw [List.mem_singleton] at hr
    subst hr
    rfl
  have h3 : ∀ r ∈ [[(7 : ℚ)/10, 1/10, 1/10, 1/10]], |r.sum - 1| ≤ 1/2000000 := by
    intro r hr
    rw [List.mem_singleton] at hr
    subst hr
    rw [show ([(7 : ℚ)/10, 1/10, 1/10, 1/10].sum) - 1 = 0 by
        norm_num [List.sum_cons, List.sum_nil],
      abs_zero]
    norm_num
  exact ⟨h1, h2, h3, pwm_filter_formula _ h1 h2 h3⟩

/-- C6: for every EnergeticDNABindingModel constructed from a scalar
ref_energy and a nonempty uniform L x C ddg array with C in 4, 10, the
model's convolutional filter equals the negation of the ddg array after
ref_energy has been added into its first row, and the stored ddg array
equals the constructor input. -/
theorem energetic_init_filter (ref : ℝ) (ddg : List (List ℝ)) (c : Nat)
    (hne : ddg ≠ []) (hu : ∀ r ∈ ddg, r.length = c) (hc : c = 4 ∨ c = 10) :
    ∃ m, energetic_init ref ddg = Except.ok m ∧
      m.convolutional_filter = neg_matrix (add_ref_to_row0 ref ddg) ∧
      m.ddg_array = ddg :=
  ⟨_, energetic_init_ok ref ddg c hne hu hc, rfl, rfl⟩

/-- Witness for C6 on a concrete one-row zero ddg array with ref energy 1. -/
theorem energetic_init_filter_check :
    (([[0, 0, 0, 0]] : List (List ℝ)) ≠ []) ∧
    (∀ r ∈ ([[0, 0, 0, 0]] : List (List ℝ)), r.length = 4) ∧
    ∃ m, energetic_init 1 [[0, 0, 0, 0]] = Except.ok m ∧
      m.convolutional_filter = neg_matrix (add_ref_to_row0 1 [[0, 0, 0, 0]]) ∧
      m.ddg_array = [[0, 0, 0, 0]] := by
  have h1 : (([[0, 0, 0, 0]] : List (List ℝ)) ≠ []) := List.cons_ne_nil _ _
  have h2 : ∀ r ∈ ([[0, 0, 0, 0]] : List (List ℝ)), r.length = 4 := by
    intro r hr
    rw [List.mem_singleton] at hr
    subst hr
    rfl
  exact ⟨h1, h2, energetic_init_filter 1 [[0, 0, 0, 0]] 4 h1 h2 (Or.inl rfl)⟩

/-- C1 (code bug): for every valid PWM model and every chemical potential,
build_energetic_model succeeds but the subsequent build_pwm call raises
NameError - the method body reads the unbound name `ref_energy` instead of
`self.ref_energy` - rather than returning a probability matrix. -/
theorem build_pwm_always_raises (pwm : List (List ℚ)) (chem_pot : ℝ)
    (hne : pwm ≠ []) (hc : ∀ r ∈ pwm, r.length = 4)
    (hs : ∀ r ∈ pwm, |r.sum - 1| ≤ 1/2000000) :
    ∃ (pm : PWMBindingModel) (em : EnergeticDNABindingModel),
      pwm_init pwm = Except.ok pm ∧
      pm.build_energetic_model false = Except.ok em ∧
      em.build_pwm chem_pot
        = Except.error "NameError: ref_energy is not defined" := by
  have hchk := pwm_check_none pwm hne hc hs
  have hfrows : ∀ r ∈ pwm_filter pwm, r.length = 4 := by
    intro r hr
    simp only [pwm_filter, List.mem_map] at hr
    obtain ⟨y, hy, rfl⟩ := hr
    simp [hc y hy]
  refine ⟨{ pwm := pwm, convolutional_filter := pwm_filter pwm },
    { ref_energy := 0,
      ddg_array := (pwm_filter pwm).map (fun row =>
        (List.range 4).map (fun j => if j < row.length then -(row.getD j 0) else 0)),
      convolutional_filter := neg_matrix (add_ref_to_row0 0
        ((pwm_filter pwm).map (fun row =>
          (List.range 4).map (fun j => if j < row.length then -(row.getD j 0) else 0)))) },
    ?_, ?_, rfl⟩
  · unfold pwm_init
    rw [hchk]
  · have hne2 : ((pwm_filter pwm).map (fun row =>
        (List.range 4).map (fun j => if j < row.length then -(row.getD j 0) else 0)))
        ≠ [] := by
      intro hnil
      rw [List.map_eq_nil_iff] at hnil
      rw [pwm_filter, List.map_eq_nil_iff] at hnil
      exact hne hnil
    have hrows2 : ∀ r ∈ ((pwm_filter pwm).map (fun row =>
        (List.range 4).map (fun j => if j < row.length then -(row.getD j 0) else 0))),
        r.length = 4 := by
      intro r hr
      rw [List.mem_map] at hr
      obtain ⟨y, hy, rfl⟩ := hr
      simp
    have hok := energetic_init_ok 0 _ 4 hne2 hrows2 (Or.inl rfl)
    show PWMBindingModel.build_energetic_model _ false = _
    unfold PWMBindingModel.build_energetic_model
    rw [if_neg]
    · exact hok
    · intro hany
      simp only [List.any_eq_true] at hany
      obtain ⟨x, hx, hlt⟩ := hany
      simp [hfrows x hx] at hlt

/-- Witness for C1 on a concrete valid one-column PWM at chemical
potential 0. -/
theorem build_pwm_always_raises_check :
    ([[(7 : ℚ)/10, 1/10, 1/10, 1/10]] ≠ ([] : List (List ℚ))) ∧
    (∀ r ∈ [[(7 : ℚ)/10, 1/10, 1/10, 1/10]], r.length = 4) ∧
    (∀ r ∈ [[(7 : ℚ)/10, 1/10, 1/10, 1/10]], |r.sum - 1| ≤ 1/2000000) ∧
    ∃ (pm : PWMBindingModel) (em : EnergeticDNABindingModel),
      pwm_init [[(7 : ℚ)/10, 1/10, 1/10, 1/10]] = Except.ok pm ∧
      pm.build_energetic_model false = Except.ok em ∧
      em.build_pwm 0 = Except.error "NameError: ref_energy is not defined" := by
  have h1 : ([[(7 : ℚ)/10, 1/10, 1/10, 1/10]] ≠ ([] : List (List ℚ))) :=
    List.cons_ne_nil _ _
  have h2 : ∀ r ∈ [[(7 : ℚ)/10, 1/10, 1/10, 1/10]], r.length = 4 := by
    intro r hr
    rw [List.mem_singleton] at hr
    subst hr
    rfl
  have h3 : ∀ r ∈ [[(7 : ℚ)/10, 1/10, 1/10, 1/10]], |r.sum - 1| ≤ 1/2000000 := by
    intro r hr
    rw [List.mem_singleton] at hr
    subst hr
    rw [show ([(7 : ℚ)/10, 1/10, 1/10, 1/10].sum) - 1 = 0 by
        norm_num [List.sum_cons, List.sum_nil],
      abs_zero]
    norm_num
  exact ⟨h1, h2, h3, build_pwm_always_raises _ 0 h1 h2 h3⟩

/-- C9: when the weights argument is omitted it defaults to the uniform
distribution (each weight 1/len(affinities)); when a supplied weights list
sums further than 1e-6 from 1.0 the call fails with the malformed-weights
assertion error, whatever the affinities and concentrations, before any
root-finding is attempted. -/
theorem est_chem_weights_default_and_check (affs : List ℚ) (dna prot : ℚ) :
    effective_weights affs none
        = List.replicate affs.length (1 / (affs.length : ℚ)) ∧
    ∀ w : List ℚ, 1/1000000 < |w.sum - 1| →
      est_chem_potential_from_affinities affs dna prot (some w)
        = Except.error "AssertionError" := by
  refine ⟨rfl, ?_⟩
  intro w hw
  have hne : rint ((effective_weights affs (some w)).sum * 1000000) ≠ 1000000 := by
    intro hcontra
    rw [show effective_weights affs (some w) = w from rfl, rint_sum_iff] at hcontra
    linarith
  unfold est_chem_potential_from_affinities
  rw [if_neg hne]

/-- Witness for C9: a supplied weight list summing to 2 is rejected. -/
theorem est_chem_weights_default_and_check_inst :
    ((1 : ℚ)/1000000 < |([(2 : ℚ)].sum) - 1|) ∧
    est_chem_potential_from_affinities [0] 1 1 (some [2])
      = Except.error "AssertionError" := by
  have hgt : (1 : ℚ)/1000000 < |([(2 : ℚ)].sum) - 1| := by
    rw [show ([(2 : ℚ)].sum) - 1 = 1 by norm_num [List.sum_cons, List.sum_nil],
      abs_of_nonneg (by norm_num : (0:ℚ) ≤ 1)]
    norm_num
  exact ⟨hgt, (est_chem_weights_default_and_check [0] 1 1).2 [2] hgt⟩

/-- C8: with weights passing the assertion and a nondegenerate bracket, the
solver raises the no-sign-change error whenever the mass-balance residual has
the same strict sign at both ends of the bracket [-1000, 100 +
log(prot_conc/(R*T))]; otherwise it returns a value of that bracket lying in
a sign-change sub-bracket of width at most the absolute tolerance 1e-4. -/
theorem est_chem_potential_bracket_and_error (affs : List ℚ) (dna prot : ℚ)
    (wopt : Option (List ℚ))
    (hw : rint ((effective_weights affs wopt).sum * 1000000) = 1000000)
    (hb : (-1000 : ℝ) ≤ max_u prot) :
    (0 < f_mass_balance affs dna prot (effective_weights affs wopt) (-1000) *
        f_mass_balance affs dna prot (effective_weights affs wopt) (max_u prot) →
      est_chem_potential_from_affinities affs dna prot wopt
        = Except.error "ValueError: f(a) and f(b) must have different signs") ∧
    (f_mass_balance affs dna prot (effective_weights affs wopt) (-1000) *
        f_mass_balance affs dna prot (effective_weights affs wopt) (max_u prot) ≤ 0 →
      ∃ u, est_chem_potential_from_affinities affs dna prot wopt = Except.ok u ∧
        -1000 ≤ u ∧ u ≤ max_u prot ∧
        ∃ a2 b2, -1000 ≤ a2 ∧ a2 ≤ u ∧ u ≤ b2 ∧ b2 ≤ max_u prot ∧
          b2 - a2 ≤ 1/10000 ∧
          f_mass_balance affs dna prot (effective_weights affs wopt) a2 *
            f_mass_balance affs dna prot (effective_weights affs wopt) b2 ≤ 0) := by
  constructor
  · intro hpos
    unfold est_chem_potential_from_affinities
    rw [if_pos hw]
    unfold brentq
    rw [dif_neg]
    intro hcond
    exact absurd hcond.1 (not_le.mpr hpos)
  · intro hnonpos
    unfold est_chem_potential_from_affinities
    rw [if_pos hw]
    unfold brentq
    have hcond : f_mass_balance affs dna prot (effective_weights affs wopt) (-1000) *
        f_mass_balance affs dna prot (effective_weights affs wopt) (max_u prot) ≤ 0 ∧
        (-1000 : ℝ) ≤ max_u prot ∧ (0 : ℝ) < 1/10000 := ⟨hnonpos, hb, by norm_num⟩
    rw [dif_pos hcond]
    exact ⟨_, rfl,
      Classical.choose_spec
        (exists_near_root (f_mass_balance affs dna prot (effective_weights affs wopt))
          (-1000) (max_u prot) (1/10000) hcond.1 hcond.2.1 hcond.2.2)⟩

/-- Witness for C8 at one affinity 0, both concentrations 1, explicit unit
weights. -/
theorem est_chem_potential_bracket_and_error_check :
    (rint ((effective_weights [(0 : ℚ)] (some [1])).sum * 1000000) = 1000000) ∧
    ((-1000 : ℝ) ≤ max_u 1) ∧
    ((0 < f_mass_balance [(0 : ℚ)] 1 1 (effective_weights [(0 : ℚ)] (some [1])) (-1000) *
        f_mass_balance [(0 : ℚ)] 1 1 (effective_weights [(0 : ℚ)] (some [1])) (max_u 1) →
      est_chem_potential_from_affinities [(0 : ℚ)] 1 1 (some [1])
        = Except.error "ValueError: f(a) and f(b) must have different signs") ∧
    (f_mass_balance [(0 : ℚ)] 1 1 (effective_weights [(0 : ℚ)] (some [1])) (-1000) *
        f_mass_balance [(0 : ℚ)] 1 1 (effective_weights [(0 : ℚ)] (some [1])) (max_u 1) ≤ 0 →
      ∃ u, est_chem_potential_from_affinities [(0 : ℚ)] 1 1 (some [1]) = Except.ok u ∧
        -1000 ≤ u ∧ u ≤ max_u 1 ∧
        ∃ a2 b2, -1000 ≤ a2 ∧ a2 ≤ u ∧ u ≤ b2 ∧ b2 ≤ max_u 1 ∧
          b2 - a2 ≤ 1/10000 ∧
          f_mass_balance [(0 : ℚ)] 1 1 (effective_weights [(0 : ℚ)] (some [1])) a2 *
            f_mass_balance [(0 : ℚ)] 1 1 (effective_weights [(0 : ℚ)] (some [1])) b2 ≤ 0)) := by
  have hw0 : rint ((effective_weights [(0 : ℚ)] (some [1])).sum * 1000000) = 1000000 := by
    rw [show (effective_weights [(0 : ℚ)] (some [1])).sum = 1 by
      norm_num [effective_weights, List.sum_cons, List.sum_nil]]
    rw [rint_sum_iff, sub_self, abs_zero]
    norm_num
  have hb0 : (-1000 : ℝ) ≤ max_u 1 := by
    have hRT : (0 : ℝ) < R * T := by norm_num [R, T]
    have h1le : (1 : ℝ) ≤ ((1 : ℚ) : ℝ) / (R * T) := by
      rw [show ((1 : ℚ) : ℝ) = 1 by norm_num, le_div_iff₀ hRT]
      norm_num [R, T]
    have hlog : 0 ≤ Real.log (((1 : ℚ) : ℝ) / (R * T)) := Real.log_nonneg h1le
    rw [max_u]
    linarith
  exact ⟨hw0, hb0,
    est_chem_potential_bracket_and_error [(0 : ℚ)] 1 1 (some [1]) hw0 hb0⟩
